import Mathlib

/-!
Shallow embedding of the session-processing client of the BypassAIGC
repository (frontend pages `SessionDetailPage.jsx` and `WorkspacePage.jsx`),
together with a spec-modelled Admission Controller and stop transition for
the backend engine, which is not among the provided source files.

Statuses, stages and event types are kept as the string literals the
JavaScript source compares against.
-/

/-- JS falsy-or with a string default: `a || b` where `a` is a nullable
string. `null`/`undefined` (modelled as `none`) and the empty string are
falsy, so they yield `b`; any non-empty string yields itself. -/
def jsOr (a : Option String) (b : String) : String :=
  match a with
  | some s => if s = "" then b else s
  | none => b

/-- The string value of a nullable text field, reading null as `""`. -/
def textOf (a : Option String) : String := jsOr a ""

/-- ECMAScript whitespace characters relevant to `String.prototype.trim`
(ASCII whitespace plus NBSP and the BOM). -/
def isJsWhitespace (c : Char) : Bool :=
  c == ' ' || c == '\t' || c == '\n' || c == '\r' || c == '\x0b' || c == '\x0c' ||
    c == '\u00A0' || c == '\uFEFF'

/-- `String.prototype.trim`: strip leading and trailing whitespace. -/
def jsTrim (s : String) : String :=
  String.mk (((s.data.dropWhile isJsWhitespace).reverse.dropWhile isJsWhitespace).reverse)

/-- A loaded segment as held in the `segments` React state of
`SessionDetailPage`: ordinal index, original text, the nullable per-stage
outputs, and a status string. -/
structure Segment where
  segment_index : Nat
  original_text : String
  polished_text : Option String
  enhanced_text : Option String
  status : String
deriving DecidableEq

/-- A server-sent event as parsed from the SSE stream: its `type`
discriminator plus the fields the handlers read. -/
structure SSEData where
  type : String
  segment_index : Int
  stage : String
  content : String
  message : String
deriving DecidableEq

/-- The payload of a `content`-typed event, as consumed by
`handleStreamUpdate`. The index is an integer: the handler must tolerate
arbitrary values. -/
structure ContentEvent where
  segment_index : Int
  stage : String
  content : String
deriving DecidableEq

def toContentEvent (d : SSEData) : ContentEvent :=
  ⟨d.segment_index, d.stage, d.content⟩

/-- The `setSegments` updater of `handleStreamUpdate`
(`SessionDetailPage.jsx` lines 60-89): if the indexed segment does not
exist the previous state is returned unchanged; otherwise the event's
content is appended to `polished_text` for stages `polish` and
`emotion_polish`, to `enhanced_text` for stage `enhance`, and the segment
is marked `processing`. -/
def applyContent (segs : List Segment) (ev : ContentEvent) : List Segment :=
  if h : 0 ≤ ev.segment_index ∧ ev.segment_index.toNat < segs.length then
    let i := ev.segment_index.toNat
    let seg0 := segs.get ⟨i, h.2⟩
    let seg1 :=
      if ev.stage = "polish" ∨ ev.stage = "emotion_polish" then
        { seg0 with polished_text := some (jsOr seg0.polished_text "" ++ ev.content) }
      else if ev.stage = "enhance" then
        { seg0 with enhanced_text := some (jsOr seg0.enhanced_text "" ++ ev.content) }
      else seg0
    let seg2 := if seg1.status ≠ "processing" then { seg1 with status := "processing" } else seg1
    segs.set i seg2
  else segs

/-- A sequence of received `content` events folded through
`handleStreamUpdate` in delivery order. -/
def applyContents (segs : List Segment) (evs : List ContentEvent) : List Segment :=
  evs.foldl applyContent segs

/-- The polished text displayed for segment `i` (null read as `""`). -/
def polishedAt (segs : List Segment) (i : Nat) : String :=
  match segs[i]? with
  | some seg => textOf seg.polished_text
  | none => ""

/-- The enhanced text displayed for segment `i` (null read as `""`). -/
def enhancedAt (segs : List Segment) (i : Nat) : String :=
  match segs[i]? with
  | some seg => textOf seg.enhanced_text
  | none => ""

/-- The status of segment `i` (out of range reads as `""`). -/
def statusAt (segs : List Segment) (i : Nat) : String :=
  match segs[i]? with
  | some seg => seg.status
  | none => ""

/-- Does this `content` event carry a polish-stage delta for segment `i`? -/
def isPolishDeltaFor (i : Nat) (ev : ContentEvent) : Bool :=
  ev.segment_index == (i : Int) && (ev.stage == "polish" || ev.stage == "emotion_polish")

/-- Does this `content` event carry an enhance-stage delta for segment `i`? -/
def isEnhanceDeltaFor (i : Nat) (ev : ContentEvent) : Bool :=
  ev.segment_index == (i : Int) && ev.stage == "enhance"

/-- Concatenation of a list of strings in order. -/
def concatAll : List String → String
  | [] => ""
  | s :: rest => s ++ concatAll rest

/-- The view of the session record that the detail page mutates: only its
status string is touched by the stream handler. -/
structure SessionView where
  status : String
deriving DecidableEq

/-- The React state of the detail page touched by the SSE `onmessage`
handler. -/
structure DetailState where
  session : Option SessionView
  segments : List Segment
deriving DecidableEq

/-- A toast notification raised by the handler. -/
inductive Notice where
  | info (message : String)
deriving DecidableEq

/-- The `setSession` updater of `handleStreamUpdate` (lines 92-97): marks
the session `processing` if it is loaded and not already so. -/
def sessionToProcessing (s : Option SessionView) : Option SessionView :=
  match s with
  | some sv => if sv.status ≠ "processing" then some { sv with status := "processing" } else some sv
  | none => none

/-- The SSE `onmessage` dispatcher (lines 32-43): `content` events go to
`handleStreamUpdate`; `history_compressed` events raise an informational
toast with the event's message; anything else is ignored. Returns the new
state and the notifications raised. -/
def onMessage (st : DetailState) (d : SSEData) : DetailState × List Notice :=
  if d.type = "content" then
    ({ session := sessionToProcessing st.session,
       segments := applyContent st.segments (toContentEvent d) }, [])
  else if d.type = "history_compressed" then
    (st, [Notice.info d.message])
  else
    (st, [])

/-- A segment's contribution to the final text
(`seg.enhanced_text || seg.polished_text || seg.original_text`). -/
def finalOf (seg : Segment) : String :=
  jsOr seg.enhanced_text (jsOr seg.polished_text seg.original_text)

/-- The comparator `(a, b) => a.segment_index - b.segment_index` viewed as
the ascending-order test it induces. -/
def segLe (a b : Segment) : Bool :=
  a.segment_index ≤ b.segment_index

/-- `getFinalText` (lines 163-168): segments sorted ascending by
`segment_index`, each contributing `enhanced || polished || original`,
joined with a blank line. -/
def getFinalText (segments : List Segment) : String :=
  String.intercalate "\n\n" ((segments.mergeSort segLe).map finalOf)

/-- The claim's wording of a segment's contribution: its enhanced text if
non-empty, otherwise its polished text if non-empty, otherwise its original
source text. -/
def specContribution (seg : Segment) : String :=
  if textOf seg.enhanced_text ≠ "" then textOf seg.enhanced_text
  else if textOf seg.polished_text ≠ "" then textOf seg.polished_text
  else seg.original_text

/-- A session row as held by the workspace page. -/
structure SessionSummary where
  session_id : String
  status : String
deriving DecidableEq

/-- The workspace (submission) page state touched by the handlers under
study. -/
structure WorkspaceState where
  text : String
  processingMode : String
  sessions : List SessionSummary
  activeSession : Option String
  isSubmitting : Bool
deriving DecidableEq

/-- The body of a start-optimization request. -/
structure StartRequest where
  original_text : String
  processing_mode : String
deriving DecidableEq

/-- `handleStartOptimization` (`WorkspacePage`, lines 204-230): rejects a
blank document with a toast before any request is built; otherwise issues
the start request and, on success, clears the editor and records the new
active session. The server's reply is passed in as `resp`; the second
component is the request issued, if any. -/
def handleStartOptimization (st : WorkspaceState) (resp : Except String String) :
    WorkspaceState × Option StartRequest :=
  if jsTrim st.text = "" then (st, none)
  else if st.isSubmitting then (st, none)
  else
    match resp with
    | .ok sid =>
        ({ st with text := "", activeSession := some sid, isSubmitting := false },
         some ⟨st.text, st.processingMode⟩)
    | .error _ =>
        ({ st with isSubmitting := false }, some ⟨st.text, st.processingMode⟩)

/-- The body of a retry request. -/
structure RetryRequest where
  session_id : String
deriving DecidableEq

/-- `SessionItem.handleRetry` (lines 17-22): forwards to the `onRetry`
callback only when the row's status is `failed`. -/
def handleRetryClick (session : SessionSummary) : Option SessionSummary :=
  if session.status == "failed" then some session else none

/-- `handleRetrySegment` (lines 260-279): returns at once unless the
session is `failed`; then asks for confirmation; only then issues the
retry request and marks the session active. -/
def handleRetrySegment (st : WorkspaceState) (session : SessionSummary)
    (confirmRetry : Bool) (resp : Except String String) :
    WorkspaceState × Option RetryRequest :=
  if session.status ≠ "failed" then (st, none)
  else if ¬ confirmRetry then (st, none)
  else
    match resp with
    | .ok _ =>
        ({ st with activeSession := some session.session_id }, some ⟨session.session_id⟩)
    | .error _ => (st, some ⟨session.session_id⟩)

/-- The header actions rendered by `SessionDetailPage` (lines 215-256) for
a session status: a completed badge plus export button for `completed`, a
failure badge for `failed`, a stopped badge for `stopped`, and the stop
button exactly when the status is `processing` or `queued`. -/
inductive NavAction where
  | completedBadge
  | exportButton
  | failedBadge
  | stoppedBadge
  | stopButton
deriving DecidableEq

def navActions (status : String) : List NavAction :=
  (if status == "completed" then [NavAction.completedBadge, NavAction.exportButton] else []) ++
    (if status == "failed" then [NavAction.failedBadge] else []) ++
      (if status == "stopped" then [NavAction.stoppedBadge] else []) ++
        (if status == "processing" || status == "queued" then [NavAction.stopButton] else [])

/-- `handleStop` (lines 149-161): issues the stop request for the session
only after the confirmation dialog is accepted. -/
def handleStop (sessionId : String) (confirmed : Bool) : Option String :=
  if confirmed then some sessionId else none

/-- Modelled from the spec: the Session State Machine's stop transition
(§4.2) lives in the backend engine, which is not among the provided source
files; a stop request on a `processing` or `queued` session transitions it
to `stopped`, and is not accepted in any other status. -/
def applyStop (status : String) : Option String :=
  if status = "processing" ∨ status = "queued" then some "stopped" else none

/-- Modelled from the spec: the Admission Controller (§4.1) lives in the
backend engine, which is not among the provided source files. Its state is
the configured ceiling, the list of active (processing) sessions and the
FIFO wait queue. -/
structure AdmissionState where
  maxCount : Nat
  active : List String
  queue : List String
deriving DecidableEq

/-- Modelled from the spec: `submit` grants a slot immediately when
occupied slots are below the configured maximum, otherwise appends the
session to the FIFO wait queue. -/
def admSubmit (st : AdmissionState) (sid : String) : AdmissionState :=
  if st.active.length < st.maxCount then { st with active := st.active ++ [sid] }
  else { st with queue := st.queue ++ [sid] }

/-- Modelled from the spec: `release` frees the session's slot and
promotes the head of the FIFO queue, if any. -/
def admRelease (st : AdmissionState) (sid : String) : AdmissionState :=
  let freed : AdmissionState := { st with active := st.active.erase sid }
  match freed.queue with
  | [] => freed
  | next :: rest =>
      if freed.active.length < freed.maxCount then
        { freed with active := freed.active ++ [next], queue := rest }
      else freed

/-- Modelled from the spec: a queued session cancelled by its owner is
removed from the queue; not an error. -/
def admCancel (st : AdmissionState) (sid : String) : AdmissionState :=
  { st with queue := st.queue.erase sid }

/-- An operation on the admission controller. -/
inductive AdmOp where
  | submit (sid : String)
  | release (sid : String)
  | cancel (sid : String)
deriving DecidableEq

def admStep (st : AdmissionState) (op : AdmOp) : AdmissionState :=
  match op with
  | .submit sid => admSubmit st sid
  | .release sid => admRelease st sid
  | .cancel sid => admCancel st sid

/-- Run a sequence of operations against the controller. -/
def admRun (st : AdmissionState) (ops : List AdmOp) : AdmissionState :=
  ops.foldl admStep st

/-- The controller's initial state: no active sessions, empty queue. -/
def admInit (maxCount : Nat) : AdmissionState :=
  ⟨maxCount, [], []⟩

/-- The per-segment text mutation of `handleStreamUpdate` (lines 76-80),
factored out of `applyContent` for reasoning: append the content to the
stage's output field. -/
def applyStageText (seg : Segment) (ev : ContentEvent) : Segment :=
  if ev.stage = "polish" ∨ ev.stage = "emotion_polish" then
    { seg with polished_text := some (jsOr seg.polished_text "" ++ ev.content) }
  else if ev.stage = "enhance" then
    { seg with enhanced_text := some (jsOr seg.enhanced_text "" ++ ev.content) }
  else seg

/-- The status mutation of `handleStreamUpdate` (lines 83-85): mark the
segment `processing` if it is not already. -/
def markProcessing (seg : Segment) : Segment :=
  if seg.status ≠ "processing" then { seg with status := "processing" } else seg

/-- The full mutation `handleStreamUpdate` applies to the targeted
segment. -/
def updatedSegment (seg : Segment) (ev : ContentEvent) : Segment :=
  markProcessing (applyStageText seg ev)

/-! ### Helper lemmas -/

theorem jsTrim_of_all_whitespace {s : String} (h : s.data.all isJsWhitespace) :
    jsTrim s = "" := by
  have h' : ∀ c ∈ s.data, isJsWhitespace c := List.all_eq_true.mp h
  have h1 : s.data.dropWhile isJsWhitespace = [] := List.dropWhile_eq_nil_iff.mpr h'
  simp [jsTrim, h1]

theorem admStep_maxCount (st : AdmissionState) (op : AdmOp) :
    (admStep st op).maxCount = st.maxCount := by
  cases op <;> simp only [admStep, admSubmit, admRelease, admCancel] <;>
    (repeat' split) <;> rfl

theorem admStep_ceiling (st : AdmissionState) (op : AdmOp)
    (h : st.active.length ≤ st.maxCount) :
    (admStep st op).active.length ≤ (admStep st op).maxCount := by
  cases op with
  | submit sid =>
      simp only [admStep, admSubmit]
      split
      · next hlt => simp; omega
      · simpa using h
  | release sid =>
      have herase : (st.active.erase sid).length ≤ st.active.length :=
        (List.erase_sublist _ _).length_le
      simp only [admStep, admRelease]
      split
      · simp; omega
      · split
        · next hlt => simp at hlt ⊢; omega
        · simp; omega
  | cancel sid => simpa using h

theorem admRun_maxCount (ops : List AdmOp) (st : AdmissionState) :
    (admRun st ops).maxCount = st.maxCount := by
  induction ops generalizing st with
  | nil => rfl
  | cons op ops ih => exact (ih (admStep st op)).trans (admStep_maxCount st op)

theorem admRun_ceiling (ops : List AdmOp) (st : AdmissionState)
    (h : st.active.length ≤ st.maxCount) :
    (admRun st ops).active.length ≤ (admRun st ops).maxCount := by
  induction ops generalizing st with
  | nil => exact h
  | cons op ops ih => exact ih (admStep st op) (admStep_ceiling st op h)

/-! ### Claim theorems -/

/-- C3: a submission whose document text is empty or whitespace-only is
rejected synchronously: no start-optimization request is issued, no active
session is set, and the session list is unchanged (the whole workspace
state is returned as it was). -/
theorem startOptimization_rejects_blank (st : WorkspaceState)
    (resp : Except String String) (h : st.text.data.all isJsWhitespace) :
    handleStartOptimization st resp = (st, none) := by
  simp [handleStartOptimization, jsTrim_of_all_whitespace h]

theorem startOptimization_rejects_blank_witness :
    (("  \n\t".data.all isJsWhitespace) = true) ∧
      handleStartOptimization ⟨"  \n\t", "paper_polish", [], none, false⟩ (.ok "s1") =
        (⟨"  \n\t", "paper_polish", [], none, false⟩, none) :=
  ⟨by decide, startOptimization_rejects_blank _ _ (by decide)⟩

/-- C4: the retry handlers send a retry request only for a `failed`
session: for `completed`, `stopped`, `processing` and `queued` sessions
both the list-item click handler and the retry operation return without a
request and leave the workspace state unchanged. -/
theorem retry_only_for_failed (st : WorkspaceState) (session : SessionSummary)
    (confirmRetry : Bool) (resp : Except String String)
    (h : session.status = "completed" ∨ session.status = "stopped" ∨
      session.status = "processing" ∨ session.status = "queued") :
    handleRetryClick session = none ∧
      handleRetrySegment st session confirmRetry resp = (st, none) := by
  have hne : session.status ≠ "failed" := by
    rcases h with h | h | h | h <;> simp [h]
  exact ⟨by simp [handleRetryClick, hne], by simp [handleRetrySegment, hne]⟩

theorem retry_only_for_failed_witness :
    ((SessionSummary.mk "s1" "stopped").status = "completed" ∨
        (SessionSummary.mk "s1" "stopped").status = "stopped" ∨
        (SessionSummary.mk "s1" "stopped").status = "processing" ∨
        (SessionSummary.mk "s1" "stopped").status = "queued") ∧
      handleRetryClick ⟨"s1", "stopped"⟩ = none ∧
      handleRetrySegment ⟨"", "paper_polish", [], none, false⟩ ⟨"s1", "stopped"⟩ true (.ok "ok") =
        (⟨"", "paper_polish", [], none, false⟩, none) :=
  ⟨Or.inr (Or.inl rfl),
   retry_only_for_failed ⟨"", "paper_polish", [], none, false⟩ ⟨"s1", "stopped"⟩ true (.ok "ok")
     (Or.inr (Or.inl rfl))⟩

/-- C10: a `content` event whose segment index does not refer to an
existing loaded segment (negative, or at least the list length) leaves the
segment list unchanged; the handler is total, so no error is raised. -/
theorem applyContent_out_of_range (segs : List Segment) (ev : ContentEvent)
    (h : ¬ (0 ≤ ev.segment_index ∧ ev.segment_index.toNat < segs.length)) :
    applyContent segs ev = segs := by
  simp only [applyContent, dif_neg h]

theorem applyContent_out_of_range_witness :
    applyContent [⟨0, "a", none, none, "pending"⟩] ⟨-2, "polish", "x"⟩ =
        [⟨0, "a", none, none, "pending"⟩] ∧
      applyContent [⟨0, "a", none, none, "pending"⟩] ⟨7, "enhance", "x"⟩ =
        [⟨0, "a", none, none, "pending"⟩] :=
  ⟨applyContent_out_of_range _ _ (by decide),
   applyContent_out_of_range _ _ (by decide)⟩

/-- C8: a `history_compressed` event produces exactly one informational
notification carrying the event's message and leaves the page state — every
segment's texts and statuses and the session's status — unchanged. -/
theorem historyCompressed_info_only (st : DetailState) (d : SSEData)
    (h : d.type = "history_compressed") :
    onMessage st d = (st, [Notice.info d.message]) := by
  have hc : d.type ≠ "content" := by simp [h]
  simp [onMessage, hc, h]

theorem historyCompressed_info_only_witness :
    (SSEData.mk "history_compressed" 0 "" "" "m").type = "history_compressed" ∧
      onMessage ⟨some ⟨"processing"⟩, [⟨0, "a", none, none, "done"⟩]⟩
          ⟨"history_compressed", 0, "", "", "m"⟩ =
        (⟨some ⟨"processing"⟩, [⟨0, "a", none, none, "done"⟩]⟩, [Notice.info "m"]) :=
  ⟨rfl, historyCompressed_info_only _ _ rfl⟩

/-- C5: starting from an empty controller, after any sequence of submit,
release and cancel operations the number of active (processing) sessions
never exceeds the configured ceiling; and a submission arriving with all
slots occupied is appended to the FIFO wait queue, leaving the active set
unchanged. -/
theorem admission_ceiling_holds (maxCount : Nat) (ops : List AdmOp) :
    (admRun (admInit maxCount) ops).active.length ≤ maxCount ∧
      ∀ st : AdmissionState, ∀ sid : String, st.maxCount ≤ st.active.length →
        admSubmit st sid = { st with queue := st.queue ++ [sid] } := by
  constructor
  · have h := admRun_ceiling ops (admInit maxCount) (by simp [admInit])
    simpa [admRun_maxCount] using h
  · intro st sid hfull
    have hnlt : ¬ st.active.length < st.maxCount := by omega
    simp [admSubmit, hnlt]

theorem admission_ceiling_holds_witness :
    (admRun (admInit 1) [AdmOp.submit "a", AdmOp.submit "b", AdmOp.release "a"]).active.length ≤ 1 ∧
      admSubmit ⟨1, ["a"], []⟩ "b" = ⟨1, ["a"], ["b"]⟩ :=
  ⟨(admission_ceiling_holds 1 [AdmOp.submit "a", AdmOp.submit "b", AdmOp.release "a"]).1,
   (admission_ceiling_holds 1 []).2 ⟨1, ["a"], []⟩ "b" (by decide)⟩

/-- C7: the session-detail header offers the stop action exactly while the
session's status is `processing` or `queued`; in those statuses a confirmed
stop issues the stop request, and the (spec-modelled) stop transition takes
the session to `stopped`; in `completed`, `failed` and `stopped` no stop
button is rendered. -/
theorem stop_available_iff (status : String) :
    (NavAction.stopButton ∈ navActions status ↔
        (status = "processing" ∨ status = "queued")) ∧
      ((status = "processing" ∨ status = "queued") → applyStop status = some "stopped") ∧
      ∀ sessionId : String, handleStop sessionId true = some sessionId := by
  refine ⟨?_, ?_, ?_⟩
  · by_cases hc : status == "completed" <;> by_cases hf : status == "failed" <;>
      by_cases hs : status == "stopped" <;>
      by_cases hp : (status == "processing" || status == "queued") <;>
      simp_all [navActions]
  · intro h
    simp [applyStop, h]
  · intro sessionId
    simp [handleStop]

theorem stop_available_iff_witness :
    (NavAction.stopButton ∈ navActions "queued" ↔
        (("queued" : String) = "processing" ∨ ("queued" : String) = "queued")) ∧
      ((("queued" : String) = "processing" ∨ ("queued" : String) = "queued") →
        applyStop "queued" = some "stopped") ∧
      ∀ sessionId : String, handleStop sessionId true = some sessionId :=
  stop_available_iff "queued"

/-! ### Stream-update lemmas -/

theorem textOf_some (s : String) : textOf (some s) = s := by
  by_cases h : s = "" <;> simp [textOf, jsOr, h]

theorem markProcessing_polished (seg : Segment) :
    (markProcessing seg).polished_text = seg.polished_text := by
  unfold markProcessing; split <;> rfl

theorem markProcessing_enhanced (seg : Segment) :
    (markProcessing seg).enhanced_text = seg.enhanced_text := by
  unfold markProcessing; split <;> rfl

theorem markProcessing_original (seg : Segment) :
    (markProcessing seg).original_text = seg.original_text := by
  unfold markProcessing; split <;> rfl

theorem markProcessing_index (seg : Segment) :
    (markProcessing seg).segment_index = seg.segment_index := by
  unfold markProcessing; split <;> rfl

theorem markProcessing_status (seg : Segment) :
    (markProcessing seg).status = "processing" := by
  unfold markProcessing
  split
  · rfl
  · next h => exact not_not.mp h

theorem applyStageText_original (seg : Segment) (ev : ContentEvent) :
    (applyStageText seg ev).original_text = seg.original_text := by
  unfold applyStageText; split_ifs <;> rfl

theorem applyStageText_index (seg : Segment) (ev : ContentEvent) :
    (applyStageText seg ev).segment_index = seg.segment_index := by
  unfold applyStageText; split_ifs <;> rfl

theorem applyStageText_status (seg : Segment) (ev : ContentEvent) :
    (applyStageText seg ev).status = seg.status := by
  unfold applyStageText; split_ifs <;> rfl

theorem jsOr_empty (a : Option String) : jsOr a "" = textOf a := rfl

theorem applyStageText_polished (seg : Segment) (ev : ContentEvent) :
    textOf (applyStageText seg ev).polished_text =
      textOf seg.polished_text ++
        (if ev.stage = "polish" ∨ ev.stage = "emotion_polish" then ev.content else "") := by
  unfold applyStageText
  split_ifs with h1 h2 <;> simp [textOf_some, jsOr_empty]

theorem applyStageText_enhanced (seg : Segment) (ev : ContentEvent) :
    textOf (applyStageText seg ev).enhanced_text =
      textOf seg.enhanced_text ++ (if ev.stage = "enhance" then ev.content else "") := by
  unfold applyStageText
  split_ifs with h1 h2 h2
  · exact absurd h2 (by rcases h1 with h | h <;> simp [h])
  · simp
  · simp [textOf_some, jsOr_empty]
  · simp

theorem applyStageText_polished_of_enhance (seg : Segment) (ev : ContentEvent)
    (h : ev.stage = "enhance") :
    (applyStageText seg ev).polished_text = seg.polished_text := by
  unfold applyStageText
  simp [h]

theorem applyStageText_enhanced_of_polish (seg : Segment) (ev : ContentEvent)
    (h : ev.stage = "polish" ∨ ev.stage = "emotion_polish") :
    (applyStageText seg ev).enhanced_text = seg.enhanced_text := by
  unfold applyStageText
  rw [if_pos h]

theorem applyContent_eq_set (segs : List Segment) (ev : ContentEvent)
    (h : 0 ≤ ev.segment_index ∧ ev.segment_index.toNat < segs.length) :
    applyContent segs ev =
      segs.set ev.segment_index.toNat
        (updatedSegment (segs.get ⟨ev.segment_index.toNat, h.2⟩) ev) := by
  simp only [applyContent, updatedSegment, markProcessing, applyStageText, dif_pos h]

theorem applyContent_length (segs : List Segment) (ev : ContentEvent) :
    (applyContent segs ev).length = segs.length := by
  unfold applyContent
  split
  · simp
  · rfl

theorem getElem?_applyContent_target (segs : List Segment) (ev : ContentEvent) (j : Nat)
    (h0 : 0 ≤ ev.segment_index) (hj : ev.segment_index.toNat = j) (hlen : j < segs.length) :
    (applyContent segs ev)[j]? = some (updatedSegment (segs.get ⟨j, hlen⟩) ev) := by
  subst hj
  rw [applyContent_eq_set segs ev ⟨h0, hlen⟩, List.getElem?_set]
  simp [hlen]

theorem getElem?_applyContent_other (segs : List Segment) (ev : ContentEvent) (j : Nat)
    (h : ¬ (0 ≤ ev.segment_index ∧ ev.segment_index.toNat = j)) :
    (applyContent segs ev)[j]? = segs[j]? := by
  by_cases hv : 0 ≤ ev.segment_index ∧ ev.segment_index.toNat < segs.length
  · rw [applyContent_eq_set segs ev hv, List.getElem?_set]
    have hne : ev.segment_index.toNat ≠ j := fun hj => h ⟨hv.1, hj⟩
    simp [hne]
  · simp only [applyContent, dif_neg hv]

theorem isPolishDeltaFor_eq_false_of_ne (i : Nat) (ev : ContentEvent)
    (h : ev.segment_index ≠ (i : Int)) : isPolishDeltaFor i ev = false := by
  simp [isPolishDeltaFor, h]

theorem isEnhanceDeltaFor_eq_false_of_ne (i : Nat) (ev : ContentEvent)
    (h : ev.segment_index ≠ (i : Int)) : isEnhanceDeltaFor i ev = false := by
  simp [isEnhanceDeltaFor, h]

theorem target_iff (segs : List Segment) (ev : ContentEvent) (i : Nat) (_hi : i < segs.length) :
    (0 ≤ ev.segment_index ∧ ev.segment_index.toNat = i) ↔ ev.segment_index = (i : Int) := by
  omega

theorem polishedAt_eq_get (segs : List Segment) (i : Nat) (hi : i < segs.length) :
    polishedAt segs i = textOf (segs.get ⟨i, hi⟩).polished_text := by
  simp [polishedAt, List.getElem?_eq_getElem hi, List.get_eq_getElem]

theorem enhancedAt_eq_get (segs : List Segment) (i : Nat) (hi : i < segs.length) :
    enhancedAt segs i = textOf (segs.get ⟨i, hi⟩).enhanced_text := by
  simp [enhancedAt, List.getElem?_eq_getElem hi, List.get_eq_getElem]

theorem statusAt_eq_get (segs : List Segment) (i : Nat) (hi : i < segs.length) :
    statusAt segs i = (segs.get ⟨i, hi⟩).status := by
  simp [statusAt, List.getElem?_eq_getElem hi, List.get_eq_getElem]

theorem polishedAt_of_getElem (segs : List Segment) (i : Nat) (seg : Segment)
    (h : segs[i]? = some seg) : polishedAt segs i = textOf seg.polished_text := by
  unfold polishedAt; rw [h]

theorem enhancedAt_of_getElem (segs : List Segment) (i : Nat) (seg : Segment)
    (h : segs[i]? = some seg) : enhancedAt segs i = textOf seg.enhanced_text := by
  unfold enhancedAt; rw [h]

theorem statusAt_of_getElem (segs : List Segment) (i : Nat) (seg : Segment)
    (h : segs[i]? = some seg) : statusAt segs i = seg.status := by
  unfold statusAt; rw [h]

theorem polishedAt_congr (segs segs' : List Segment) (i : Nat)
    (h : segs[i]? = segs'[i]?) : polishedAt segs i = polishedAt segs' i := by
  unfold polishedAt; rw [h]

theorem enhancedAt_congr (segs segs' : List Segment) (i : Nat)
    (h : segs[i]? = segs'[i]?) : enhancedAt segs i = enhancedAt segs' i := by
  unfold enhancedAt; rw [h]

theorem statusAt_congr (segs segs' : List Segment) (i : Nat)
    (h : segs[i]? = segs'[i]?) : statusAt segs i = statusAt segs' i := by
  unfold statusAt; rw [h]

theorem polishedAt_applyContent (segs : List Segment) (ev : ContentEvent) (i : Nat)
    (hi : i < segs.length) :
    polishedAt (applyContent segs ev) i =
      polishedAt segs i ++ (if isPolishDeltaFor i ev then ev.content else "") := by
  by_cases ht : 0 ≤ ev.segment_index ∧ ev.segment_index.toNat = i
  · have hidx : ev.segment_index = (i : Int) := (target_iff segs ev i hi).mp ht
    rw [polishedAt_of_getElem _ i _ (getElem?_applyContent_target segs ev i ht.1 ht.2 hi),
      updatedSegment, markProcessing_polished, applyStageText_polished,
      ← polishedAt_eq_get segs i hi]
    rcases Classical.em (ev.stage = "polish" ∨ ev.stage = "emotion_polish") with hst | hst
    · rcases hst with h | h <;> simp [isPolishDeltaFor, hidx, h]
    · have h1 : ev.stage ≠ "polish" := fun h => hst (Or.inl h)
      have h2 : ev.stage ≠ "emotion_polish" := fun h => hst (Or.inr h)
      simp [isPolishDeltaFor, hst, h1, h2]
  · have hidx : ev.segment_index ≠ (i : Int) := fun he => ht ((target_iff segs ev i hi).mpr he)
    rw [polishedAt_congr _ segs i (getElem?_applyContent_other segs ev i ht),
      isPolishDeltaFor_eq_false_of_ne i ev hidx]
    simp

theorem enhancedAt_applyContent (segs : List Segment) (ev : ContentEvent) (i : Nat)
    (hi : i < segs.length) :
    enhancedAt (applyContent segs ev) i =
      enhancedAt segs i ++ (if isEnhanceDeltaFor i ev then ev.content else "") := by
  by_cases ht : 0 ≤ ev.segment_index ∧ ev.segment_index.toNat = i
  · have hidx : ev.segment_index = (i : Int) := (target_iff segs ev i hi).mp ht
    rw [enhancedAt_of_getElem _ i _ (getElem?_applyContent_target segs ev i ht.1 ht.2 hi),
      updatedSegment, markProcessing_enhanced, applyStageText_enhanced,
      ← enhancedAt_eq_get segs i hi]
    by_cases hst : ev.stage = "enhance" <;> simp [isEnhanceDeltaFor, hidx, hst]
  · have hidx : ev.segment_index ≠ (i : Int) := fun he => ht ((target_iff segs ev i hi).mpr he)
    rw [enhancedAt_congr _ segs i (getElem?_applyContent_other segs ev i ht),
      isEnhanceDeltaFor_eq_false_of_ne i ev hidx]
    simp

theorem statusAt_applyContent (segs : List Segment) (ev : ContentEvent) (i : Nat)
    (hi : i < segs.length) :
    statusAt (applyContent segs ev) i =
      if ev.segment_index = (i : Int) then "processing" else statusAt segs i := by
  by_cases ht : 0 ≤ ev.segment_index ∧ ev.segment_index.toNat = i
  · have hidx : ev.segment_index = (i : Int) := (target_iff segs ev i hi).mp ht
    rw [statusAt_of_getElem _ i _ (getElem?_applyContent_target segs ev i ht.1 ht.2 hi),
      updatedSegment, markProcessing_status, if_pos hidx]
  · have hidx : ev.segment_index ≠ (i : Int) := fun he => ht ((target_iff segs ev i hi).mpr he)
    rw [statusAt_congr _ segs i (getElem?_applyContent_other segs ev i ht), if_neg hidx]

theorem polishedAt_applyContents (evs : List ContentEvent) (segs : List Segment) (i : Nat)
    (hi : i < segs.length) :
    polishedAt (applyContents segs evs) i =
      polishedAt segs i ++
        concatAll ((evs.filter (isPolishDeltaFor i)).map ContentEvent.content) := by
  induction evs generalizing segs with
  | nil => simp [applyContents, concatAll]
  | cons ev evs ih =>
      have hi' : i < (applyContent segs ev).length := by
        rw [applyContent_length]; exact hi
      show polishedAt (applyContents (applyContent segs ev) evs) i = _
      rw [ih (applyContent segs ev) hi', polishedAt_applyContent segs ev i hi]
      by_cases hp : isPolishDeltaFor i ev
      · simp [List.filter_cons, hp, concatAll, String.append_assoc]
      · simp [List.filter_cons, hp, concatAll]

theorem enhancedAt_applyContents (evs : List ContentEvent) (segs : List Segment) (i : Nat)
    (hi : i < segs.length) :
    enhancedAt (applyContents segs evs) i =
      enhancedAt segs i ++
        concatAll ((evs.filter (isEnhanceDeltaFor i)).map ContentEvent.content) := by
  induction evs generalizing segs with
  | nil => simp [applyContents, concatAll]
  | cons ev evs ih =>
      have hi' : i < (applyContent segs ev).length := by
        rw [applyContent_length]; exact hi
      show enhancedAt (applyContents (applyContent segs ev) evs) i = _
      rw [ih (applyContent segs ev) hi', enhancedAt_applyContent segs ev i hi]
      by_cases hp : isEnhanceDeltaFor i ev
      · simp [List.filter_cons, hp, concatAll, String.append_assoc]
      · simp [List.filter_cons, hp, concatAll]

theorem statusAt_applyContents (evs : List ContentEvent) (segs : List Segment) (i : Nat)
    (hi : i < segs.length) :
    statusAt (applyContents segs evs) i =
      if evs.any (fun ev => ev.segment_index == (i : Int)) then "processing"
      else statusAt segs i := by
  induction evs generalizing segs with
  | nil => simp [applyContents]
  | cons ev evs ih =>
      have hi' : i < (applyContent segs ev).length := by
        rw [applyContent_length]; exact hi
      show statusAt (applyContents (applyContent segs ev) evs) i = _
      rw [ih (applyContent segs ev) hi', statusAt_applyContent segs ev i hi]
      by_cases h1 : ev.segment_index = (i : Int) <;>
        by_cases h2 : evs.any (fun ev => ev.segment_index == (i : Int)) <;>
          simp [List.any_cons, h1, h2]

/-- C2: each received `content` event appends its text to the targeted
segment's `polished_text` for stages `polish`/`emotion_polish` and to its
`enhanced_text` for stage `enhance`; hence after any sequence of such
events each loaded segment's stage output is its initial stage output
followed by the concatenation, in delivery order, of exactly that
segment-and-stage's delta payloads (so a stage output that starts empty
equals the concatenation of its deltas, and a single buffered full-text
delta yields exactly the full text). -/
theorem streamUpdate_concat_deltas (segs : List Segment) (evs : List ContentEvent) (i : Nat)
    (hi : i < segs.length) :
    polishedAt (applyContents segs evs) i =
        polishedAt segs i ++
          concatAll ((evs.filter (isPolishDeltaFor i)).map ContentEvent.content) ∧
      enhancedAt (applyContents segs evs) i =
        enhancedAt segs i ++
          concatAll ((evs.filter (isEnhanceDeltaFor i)).map ContentEvent.content) :=
  ⟨polishedAt_applyContents evs segs i hi, enhancedAt_applyContents evs segs i hi⟩

theorem streamUpdate_concat_deltas_witness :
    polishedAt (applyContents [⟨0, "orig", none, none, "pending"⟩]
        [⟨0, "polish", "Hel"⟩, ⟨0, "polish", "lo"⟩, ⟨0, "enhance", "Z"⟩]) 0 = "Hello" ∧
      enhancedAt (applyContents [⟨0, "orig", none, none, "pending"⟩]
        [⟨0, "polish", "Hel"⟩, ⟨0, "polish", "lo"⟩, ⟨0, "enhance", "Z"⟩]) 0 = "Z" ∧
      polishedAt (applyContents [⟨0, "orig", none, none, "pending"⟩]
        [⟨0, "emotion_polish", "FULL TEXT"⟩]) 0 = "FULL TEXT" := by
  have h1 := streamUpdate_concat_deltas [⟨0, "orig", none, none, "pending"⟩]
    [⟨0, "polish", "Hel"⟩, ⟨0, "polish", "lo"⟩, ⟨0, "enhance", "Z"⟩] 0 (by decide)
  have h2 := streamUpdate_concat_deltas [⟨0, "orig", none, none, "pending"⟩]
    [⟨0, "emotion_polish", "FULL TEXT"⟩] 0 (by decide)
  exact ⟨h1.1.trans (by decide), h1.2.trans (by decide), h2.1.trans (by decide)⟩

/-- C6 counterexample: the claim that no reachable client-side state has
two segments of a session simultaneously in status `processing` is false:
after `content` events for segment 0 and then segment 1, both segments are
`processing` at once. -/
theorem two_processing_counterexample :
    ¬ (((applyContents
            [⟨0, "a", none, none, "pending"⟩, ⟨1, "b", none, none, "pending"⟩]
            [⟨0, "polish", "x"⟩, ⟨1, "polish", "y"⟩]).filter
              (fun seg => seg.status == "processing")).length ≤ 1) := by
  decide

/-- C6 (amended): the client-side stream handler marks the segment
targeted by each `content` event `processing` and never demotes any other
segment, so a segment is `processing` exactly when some event targeted it
(or it already was); segments targeted by events with different indices
are therefore simultaneously `processing`, and the at-most-one-processing
invariant is not maintained in the client-side segment state. -/
theorem streamUpdate_marks_targets_processing (segs : List Segment)
    (evs : List ContentEvent) (i : Nat) (hi : i < segs.length) :
    statusAt (applyContents segs evs) i =
      if evs.any (fun ev => ev.segment_index == (i : Int)) then "processing"
      else statusAt segs i :=
  statusAt_applyContents evs segs i hi

theorem streamUpdate_marks_targets_processing_witness :
    statusAt (applyContents
        [⟨0, "a", none, none, "pending"⟩, ⟨1, "b", none, none, "pending"⟩]
        [⟨0, "polish", "x"⟩, ⟨1, "polish", "y"⟩]) 0 = "processing" ∧
      statusAt (applyContents
        [⟨0, "a", none, none, "pending"⟩, ⟨1, "b", none, none, "pending"⟩]
        [⟨0, "polish", "x"⟩, ⟨1, "polish", "y"⟩]) 1 = "processing" := by
  have h0 := streamUpdate_marks_targets_processing
    [⟨0, "a", none, none, "pending"⟩, ⟨1, "b", none, none, "pending"⟩]
    [⟨0, "polish", "x"⟩, ⟨1, "polish", "y"⟩] 0 (by decide)
  have h1 := streamUpdate_marks_targets_processing
    [⟨0, "a", none, none, "pending"⟩, ⟨1, "b", none, none, "pending"⟩]
    [⟨0, "polish", "x"⟩, ⟨1, "polish", "y"⟩] 1 (by decide)
  exact ⟨h0.trans (by decide), h1.trans (by decide)⟩

/-- C9: a `content` event mutates only the segment at the event's index —
every other position of the segment list is unchanged — and of the
targeted segment only the stage output of the event's stage and the status
may change: `original_text` and `segment_index` are always preserved, the
`polished_text` is preserved by an `enhance` event, and the
`enhanced_text` is preserved by a `polish`/`emotion_polish` event. -/
theorem streamUpdate_frame (segs : List Segment) (ev : ContentEvent) (j : Nat) :
    (¬ (0 ≤ ev.segment_index ∧ ev.segment_index.toNat = j) →
        (applyContent segs ev)[j]? = segs[j]?) ∧
      (applyContent segs ev)[j]?.map Segment.original_text =
        segs[j]?.map Segment.original_text ∧
      (applyContent segs ev)[j]?.map Segment.segment_index =
        segs[j]?.map Segment.segment_index ∧
      (ev.stage = "enhance" →
        (applyContent segs ev)[j]?.map Segment.polished_text =
          segs[j]?.map Segment.polished_text) ∧
      ((ev.stage = "polish" ∨ ev.stage = "emotion_polish") →
        (applyContent segs ev)[j]?.map Segment.enhanced_text =
          segs[j]?.map Segment.enhanced_text) := by
  by_cases ht : 0 ≤ ev.segment_index ∧ ev.segment_index.toNat = j
  · by_cases hj : j < segs.length
    · have hget := getElem?_applyContent_target segs ev j ht.1 ht.2 hj
      have hsome : segs[j]? = some (segs.get ⟨j, hj⟩) := by
        simp [List.getElem?_eq_getElem hj, List.get_eq_getElem]
      refine ⟨fun hc => absurd ht hc, ?_, ?_, ?_, ?_⟩
      · rw [hget, hsome]
        simp [updatedSegment, markProcessing_original, applyStageText_original]
      · rw [hget, hsome]
        simp [updatedSegment, markProcessing_index, applyStageText_index]
      · intro hst
        rw [hget, hsome]
        simp [updatedSegment, markProcessing_polished,
          applyStageText_polished_of_enhance _ _ hst]
      · intro hst
        rw [hget, hsome]
        simp [updatedSegment, markProcessing_enhanced,
          applyStageText_enhanced_of_polish _ _ hst]
    · have hnone : (applyContent segs ev)[j]? = segs[j]? := by
        have hv : ¬ (0 ≤ ev.segment_index ∧ ev.segment_index.toNat < segs.length) := by
          rcases ht with ⟨h0, hj'⟩
          omega
        simp only [applyContent, dif_neg hv]
      exact ⟨fun _ => hnone, by rw [hnone], by rw [hnone],
        fun _ => by rw [hnone], fun _ => by rw [hnone]⟩
  · have hother := getElem?_applyContent_other segs ev j ht
    exact ⟨fun _ => hother, by rw [hother], by rw [hother],
      fun _ => by rw [hother], fun _ => by rw [hother]⟩

theorem streamUpdate_frame_witness :
    (applyContent [⟨0, "a", none, none, "pending"⟩, ⟨1, "b", none, none, "pending"⟩]
        ⟨0, "polish", "x"⟩)[1]? =
        ([⟨0, "a", none, none, "pending"⟩, ⟨1, "b", none, none, "pending"⟩] :
          List Segment)[1]? ∧
      (applyContent [⟨0, "a", none, none, "pending"⟩, ⟨1, "b", none, none, "pending"⟩]
          ⟨0, "polish", "x"⟩)[0]?.map Segment.original_text =
        (([⟨0, "a", none, none, "pending"⟩, ⟨1, "b", none, none, "pending"⟩] :
          List Segment)[0]?).map Segment.original_text ∧
      (applyContent [⟨0, "a", none, none, "pending"⟩, ⟨1, "b", none, none, "pending"⟩]
          ⟨0, "polish", "x"⟩)[0]?.map Segment.enhanced_text =
        (([⟨0, "a", none, none, "pending"⟩, ⟨1, "b", none, none, "pending"⟩] :
          List Segment)[0]?).map Segment.enhanced_text :=
  ⟨(streamUpdate_frame [⟨0, "a", none, none, "pending"⟩, ⟨1, "b", none, none, "pending"⟩]
      ⟨0, "polish", "x"⟩ 1).1 (by decide),
   (streamUpdate_frame [⟨0, "a", none, none, "pending"⟩, ⟨1, "b", none, none, "pending"⟩]
      ⟨0, "polish", "x"⟩ 0).2.1,
   (streamUpdate_frame [⟨0, "a", none, none, "pending"⟩, ⟨1, "b", none, none, "pending"⟩]
      ⟨0, "polish", "x"⟩ 0).2.2.2.2 (Or.inl rfl)⟩

/-! ### Final-text assembly -/

theorem jsOr_eq_ite (a : Option String) (b : String) :
    jsOr a b = if textOf a ≠ "" then textOf a else b := by
  cases a with
  | none => simp [jsOr, textOf]
  | some s => by_cases h : s = "" <;> simp [jsOr, textOf, h]

theorem finalOf_eq_specContribution (seg : Segment) :
    finalOf seg = specContribution seg := by
  rw [finalOf, jsOr_eq_ite, jsOr_eq_ite, specContribution]

theorem mergeSort_segLe_pairwise (l : List Segment) :
    (l.mergeSort segLe).Pairwise (fun a b => a.segment_index ≤ b.segment_index) := by
  have h := @List.sorted_mergeSort Segment segLe
    (fun a b c hab hbc => by
      simp only [segLe, decide_eq_true_eq] at hab hbc ⊢
      omega)
    (fun a b => by
      simp only [segLe, Bool.or_eq_true, decide_eq_true_eq]
      omega)
    l
  exact h.imp (fun hab => by simpa [segLe, decide_eq_true_eq] using hab)

theorem sorted_unique_of_distinct (l₁ l₂ : List Segment)
    (hperm : l₁.Perm l₂)
    (hne : l₁.Pairwise (fun a b => a.segment_index ≠ b.segment_index))
    (hs₁ : l₁.Pairwise (fun a b => a.segment_index ≤ b.segment_index))
    (hs₂ : l₂.Pairwise (fun a b => a.segment_index ≤ b.segment_index)) :
    l₁ = l₂ := by
  haveI : IsAntisymm Segment (fun a b => a.segment_index < b.segment_index) :=
    ⟨fun a b h h' => absurd (Nat.lt_trans h h') (Nat.lt_irrefl _)⟩
  have hne₂ : l₂.Pairwise (fun a b => a.segment_index ≠ b.segment_index) :=
    (hperm.pairwise_iff (fun h => h.symm)).mp hne
  have hlt₁ : l₁.Pairwise (fun a b => a.segment_index < b.segment_index) :=
    (hs₁.and hne).imp (fun h => lt_of_le_of_ne h.1 h.2)
  have hlt₂ : l₂.Pairwise (fun a b => a.segment_index < b.segment_index) :=
    (hs₂.and hne₂).imp (fun h => lt_of_le_of_ne h.1 h.2)
  exact List.eq_of_perm_of_sorted hperm hlt₁ hlt₂

/-- C1: for a loaded segment list with distinct ordinal indices, the
assembled final output equals the segments in ascending `segment_index`
order — any permutation of the list that is sorted by index yields the
same text, so the ordinal index alone determines output order — with each
segment contributing its enhanced text if non-empty, else its polished
text if non-empty, else its original source text, joined by a blank line;
in particular a segment with no (or empty) stage outputs, such as a
skipped or unprocessed one, appears as its original text. -/
theorem finalText_index_order (segs sorted : List Segment)
    (hnd : segs.Pairwise (fun a b => a.segment_index ≠ b.segment_index))
    (hperm : sorted.Perm segs)
    (hsorted : sorted.Pairwise (fun a b => a.segment_index ≤ b.segment_index)) :
    getFinalText segs = String.intercalate "\n\n" (sorted.map specContribution) ∧
      ∀ seg : Segment, textOf seg.enhanced_text = "" → textOf seg.polished_text = "" →
        specContribution seg = seg.original_text := by
  constructor
  · have hmp : (segs.mergeSort segLe).Perm sorted :=
      (List.mergeSort_perm segs segLe).trans hperm.symm
    have hmnd : (segs.mergeSort segLe).Pairwise
        (fun a b => a.segment_index ≠ b.segment_index) :=
      (List.Perm.pairwise_iff (fun h => h.symm) (List.mergeSort_perm segs segLe)).mpr hnd
    have heq : segs.mergeSort segLe = sorted :=
      sorted_unique_of_distinct _ _ hmp hmnd (mergeSort_segLe_pairwise segs) hsorted
    rw [getFinalText, heq]
    have hfun : finalOf = specContribution := funext finalOf_eq_specContribution
    rw [hfun]
  · intro seg h1 h2
    simp [specContribution, h1, h2]

theorem finalText_index_order_witness :
    getFinalText [⟨1, "b", none, none, "pending"⟩, ⟨0, "a", some "A", none, "done"⟩] =
        String.intercalate "\n\n"
          (([⟨0, "a", some "A", none, "done"⟩, ⟨1, "b", none, none, "pending"⟩] :
            List Segment).map specContribution) ∧
      specContribution ⟨2, "c", none, none, "skipped"⟩ = "c" :=
  ⟨(finalText_index_order
      [⟨1, "b", none, none, "pending"⟩, ⟨0, "a", some "A", none, "done"⟩]
      [⟨0, "a", some "A", none, "done"⟩, ⟨1, "b", none, none, "pending"⟩]
      (by decide) (by decide) (by decide)).1,
   (finalText_index_order [⟨2, "c", none, none, "skipped"⟩] [⟨2, "c", none, none, "skipped"⟩]
      (by decide) (by decide) (by decide)).2 ⟨2, "c", none, none, "skipped"⟩ rfl rfl⟩
